import Mathlib

/-!
Shallow embedding of the block-compressed-texture decoder and PNG encoder
of `bimage.py` (functions `decompress_dxt1`, `decompress_dxt5`, `write_png`).

Byte strings are modelled as `List Nat`; indexing `data[i]` into a Python
`bytes` object is modelled as `data.getD i 0` (every read performed by the
code is guarded so that the index is in range, where it matters).
Python's truncating integer division `//` on non-negative operands is `Nat`
division; `struct.unpack('<H'/'<I'/'<Q', ...)` little-endian reads are the
explicit byte sums below.
-/

namespace BImage

/-- Little-endian 16-bit read: `struct.unpack('<H', data[off:off+2])[0]`. -/
def readLE16 (data : List Nat) (off : Nat) : Nat :=
  data.getD off 0 + 256 * data.getD (off+1) 0

/-- Little-endian 32-bit read: `struct.unpack('<I', data[off:off+4])[0]`. -/
def readLE32 (data : List Nat) (off : Nat) : Nat :=
  data.getD off 0 + 256 * data.getD (off+1) 0 + 65536 * data.getD (off+2) 0 +
    16777216 * data.getD (off+3) 0

/-- Little-endian 64-bit read: `struct.unpack('<Q', data[off:off+8])[0]`. -/
def readLE64 (data : List Nat) (off : Nat) : Nat :=
  data.getD off 0 + 256 * data.getD (off+1) 0 + 65536 * data.getD (off+2) 0 +
    16777216 * data.getD (off+3) 0 + 4294967296 * data.getD (off+4) 0 +
    1099511627776 * data.getD (off+5) 0 + 281474976710656 * data.getD (off+6) 0 +
    72057594037927936 * data.getD (off+7) 0

/-- RGB565 → RGB888 expansion, as in the code:
`r = ((c >> 11) & 0x1F) * 255 // 31`, `g = ((c >> 5) & 0x3F) * 255 // 63`,
`b = (c & 0x1F) * 255 // 31`. -/
def rgb565 (c : Nat) : Nat × Nat × Nat :=
  (((c >>> 11) &&& 0x1F) * 255 / 31,
   ((c >>> 5) &&& 0x3F) * 255 / 63,
   (c &&& 0x1F) * 255 / 31)

/-- The 4-entry RGBA palette `colors` built by `decompress_dxt1` from the two
packed 16-bit endpoints: the branch is selected by comparing the packed
integers `c0 > c1`. -/
def dxt1Colors (c0 c1 : Nat) : List (Nat × Nat × Nat × Nat) :=
  let e0 := rgb565 c0
  let e1 := rgb565 c1
  if c0 > c1 then
    [(e0.1, e0.2.1, e0.2.2, 255), (e1.1, e1.2.1, e1.2.2, 255),
     ((2 * e0.1 + e1.1) / 3, (2 * e0.2.1 + e1.2.1) / 3, (2 * e0.2.2 + e1.2.2) / 3, 255),
     ((e0.1 + 2 * e1.1) / 3, (e0.2.1 + 2 * e1.2.1) / 3, (e0.2.2 + 2 * e1.2.2) / 3, 255)]
  else
    [(e0.1, e0.2.1, e0.2.2, 255), (e1.1, e1.2.1, e1.2.2, 255),
     ((e0.1 + e1.1) / 2, (e0.2.1 + e1.2.1) / 2, (e0.2.2 + e1.2.2) / 2, 255),
     (0, 0, 0, 0)]

/-- The 4-entry RGB palette `colors` built by `decompress_dxt5`'s color
sub-block: always the 4-color interpolation, no branch on `c0 > c1`. -/
def dxt5Colors (c0 c1 : Nat) : List (Nat × Nat × Nat) :=
  let e0 := rgb565 c0
  let e1 := rgb565 c1
  [e0, e1,
   ((2 * e0.1 + e1.1) / 3, (2 * e0.2.1 + e1.2.1) / 3, (2 * e0.2.2 + e1.2.2) / 3),
   ((e0.1 + 2 * e1.1) / 3, (e0.2.1 + 2 * e1.2.1) / 3, (e0.2.2 + 2 * e1.2.2) / 3)]

/-- The 8-entry alpha ramp `alphas` built by `decompress_dxt5`:
`alphas = [a0, a1]`, then if `a0 > a1` append `((7-i)*a0 + i*a1) // 7` for
`i` in `range(1, 7)`, else append `((5-i)*a0 + i*a1) // 5` for `i` in
`range(1, 5)` followed by `0` and `255`. -/
def dxt5Alphas (a0 a1 : Nat) : List Nat :=
  if a0 > a1 then
    [a0, a1] ++ (List.range' 1 6).map (fun i => ((7 - i) * a0 + i * a1) / 7)
  else
    [a0, a1] ++ (List.range' 1 4).map (fun i => ((5 - i) * a0 + i * a1) / 5) ++ [0, 255]

/-- Component `k` of an RGBA 4-tuple (byte order of the pixel write). -/
def tupleGet (p : Nat × Nat × Nat × Nat) (k : Nat) : Nat :=
  match k with
  | 0 => p.1
  | 1 => p.2.1
  | 2 => p.2.2.1
  | _ => p.2.2.2

/-- `pixels[off:off+4] = (r, g, b, a)`: four byte stores into the buffer. -/
def writePixel (buf : List Nat) (off : Nat) (p : Nat × Nat × Nat × Nat) : List Nat :=
  (((buf.set off p.1).set (off+1) p.2.1).set (off+2) p.2.2.1).set (off+3) p.2.2.2

/-- The 4×4 pixel-write double loop shared by both decoders: for `py`, `px`
in `range(4)`, compute absolute `x = bx*4+px`, `y = by*4+py`, and when
`x < width and y < height` store the block's pixel at `(y*width+x)*4`. -/
def writeBlockPixels (w h bx byy : Nat) (pix : Nat → Nat → Nat × Nat × Nat × Nat)
    (buf : List Nat) : List Nat :=
  (List.range 4).foldl (fun b py =>
    (List.range 4).foldl (fun b px =>
      let x := bx * 4 + px
      let y := byy * 4 + py
      if x < w ∧ y < h then writePixel b ((y * w + x) * 4) (pix px py) else b) b) buf

/-- The block-grid loop shared by both decoders: `block_width = (width+3)//4`,
`block_height = (height+3)//4`; iterate block rows then block columns; a block
whose byte range `[off, off+stride)` with `off = (by*block_width+bx)*stride`
exceeds the payload length is skipped (`continue`); the buffer starts as
`bytearray(width*height*4)`, i.e. all zeros. -/
def assembleBlocks (stride : Nat) (blockPix : List Nat → Nat → Nat → Nat → Nat × Nat × Nat × Nat)
    (data : List Nat) (w h : Nat) : List Nat :=
  let bw := (w + 3) / 4
  let bh := (h + 3) / 4
  (List.range bh).foldl (fun buf byy =>
    (List.range bw).foldl (fun buf bx =>
      let off := (byy * bw + bx) * stride
      if off + stride > data.length then buf
      else writeBlockPixels w h bx byy (fun px py => blockPix data off px py) buf) buf)
    (List.replicate (w * h * 4) 0)

/-- One DXT1 block's pixel value at in-block coordinates `(px, py)`:
endpoints `c0`, `c1` and the 32-bit index field are read from the block,
and the 2-bit index selects the palette entry. -/
def dxt1BlockPix (data : List Nat) (off px py : Nat) : Nat × Nat × Nat × Nat :=
  let c0 := readLE16 data off
  let c1 := readLE16 data (off+2)
  let indices := readLE32 data (off+4)
  (dxt1Colors c0 c1).getD ((indices >>> ((py * 4 + px) * 2)) &&& 0x3) (0, 0, 0, 0)

/-- One DXT5 block's pixel value at in-block coordinates `(px, py)`:
`a0 = data[off]`, `a1 = data[off+1]`,
`alpha_indices = unpack('<Q', data[off:off+8]) >> 16`; color endpoints and
the 32-bit color index field follow at `off+8`; the 2-bit color index picks
the RGB triple and the 3-bit alpha index picks the ramp entry. -/
def dxt5BlockPix (data : List Nat) (off px py : Nat) : Nat × Nat × Nat × Nat :=
  let a0 := data.getD off 0
  let a1 := data.getD (off+1) 0
  let alphaIndices := (readLE64 data off) >>> 16
  let alphas := dxt5Alphas a0 a1
  let c0 := readLE16 data (off+8)
  let c1 := readLE16 data (off+10)
  let indices := readLE32 data (off+12)
  let c := (dxt5Colors c0 c1).getD ((indices >>> ((py * 4 + px) * 2)) &&& 0x3) (0, 0, 0)
  (c.1, c.2.1, c.2.2, alphas.getD ((alphaIndices >>> ((py * 4 + px) * 3)) &&& 0x7) 0)

/-- `decompress_dxt1(data, width, height)`: 8-byte blocks. -/
def decompress_dxt1 (data : List Nat) (width height : Nat) : List Nat :=
  assembleBlocks 8 dxt1BlockPix data width height

/-- `decompress_dxt5(data, width, height)`: 16-byte blocks. -/
def decompress_dxt5 (data : List Nat) (width height : Nat) : List Nat :=
  assembleBlocks 16 dxt5BlockPix data width height

/-- Modelled from the spec: `zlib.crc32` is an external library routine; the
spec fixes it as "the standard CRC-32 (ISO 3309) polynomial" checksum, which
is the reflected polynomial `0xEDB88320` bitwise algorithm embedded here.
One byte step: xor the byte into the register, then eight shift/xor rounds. -/
def crc32Update (crc b : Nat) : Nat :=
  (List.range 8).foldl
    (fun c _ => if c &&& 1 = 1 then (c >>> 1) ^^^ 0xEDB88320 else c >>> 1)
    (crc ^^^ b)

/-- Modelled from the spec: `zlib.crc32(s) & 0xffffffff`, the standard CRC-32
(ISO 3309) of a byte string, with init and final xor `0xFFFFFFFF`. -/
def crc32 (data : List Nat) : Nat :=
  (data.foldl crc32Update 0xFFFFFFFF) ^^^ 0xFFFFFFFF

/-- `struct.pack('>I', v)`: 4-byte big-endian encoding. -/
def be32 (v : Nat) : List Nat :=
  [(v >>> 24) &&& 0xFF, (v >>> 16) &&& 0xFF, (v >>> 8) &&& 0xFF, v &&& 0xFF]

/-- The 8-byte PNG signature `b'\x89PNG\r\n\x1a\n'`. -/
def pngSignature : List Nat := [0x89, 0x50, 0x4E, 0x47, 0x0D, 0x0A, 0x1A, 0x0A]

/-- ASCII bytes of the chunk tag `b'IHDR'`. -/
def tagIHDR : List Nat := [0x49, 0x48, 0x44, 0x52]

/-- ASCII bytes of the chunk tag `b'IDAT'`. -/
def tagIDAT : List Nat := [0x49, 0x44, 0x41, 0x54]

/-- ASCII bytes of the chunk tag `b'IEND'`. -/
def tagIEND : List Nat := [0x49, 0x45, 0x4E, 0x44]

/-- Python slice `data[a:b]` on a byte string (for `a ≤ b`): drop `a`, take
`b - a`; short inputs yield a short (possibly empty) slice, never an error. -/
def byteSlice (data : List Nat) (a b : Nat) : List Nat :=
  (data.drop a).take (b - a)

/-- The raw scanline stream built by `write_png`'s loop:
`raw = b''; for y in range(height): raw += b'\x00' + rgba[y*width*4:(y+1)*width*4]`. -/
def scanlines (width height : Nat) (rgba : List Nat) : List Nat :=
  (List.range height).foldl
    (fun raw y => raw ++ 0 :: byteSlice rgba (y * width * 4) ((y+1) * width * 4)) []

/-- `write_png(filename, width, height, rgba_data)` without the final file
write (an I/O action outside the byte-stream construction): the PNG byte
stream `png_data` it builds. `zlib.compress(raw, 9)` is an external DEFLATE
compressor whose exact output bytes the code does not determine, so it is
abstracted as the function argument `compress`; everything else is the
code's own construction. -/
def write_png (compress : List Nat → List Nat) (width height : Nat)
    (rgba : List Nat) : List Nat :=
  let ihdr := be32 width ++ be32 height ++ [8, 6, 0, 0, 0]
  let raw := scanlines width height rgba
  let compressed := compress raw
  pngSignature
    ++ be32 13 ++ tagIHDR ++ ihdr ++ be32 (crc32 (tagIHDR ++ ihdr))
    ++ be32 compressed.length ++ tagIDAT ++ compressed ++ be32 (crc32 (tagIDAT ++ compressed))
    ++ be32 0 ++ tagIEND ++ be32 (crc32 tagIEND)

/-- A chunk as the spec frames it: 4-byte big-endian data length, 4-byte
ASCII tag, data, 4-byte big-endian CRC-32 over tag+data. -/
def pngChunk (tag data : List Nat) : List Nat :=
  be32 data.length ++ tag ++ data ++ be32 (crc32 (tag ++ data))

/-- The scanline stream as the spec words it: each of the `height` rows, top
to bottom, prefixed by a single filter-type byte `0` followed by that row's
`width*4` bytes. -/
def scanlinesSpec (width height : Nat) (rgba : List Nat) : List Nat :=
  ((List.range height).map
    (fun y => 0 :: ((rgba.drop (y * width * 4)).take (width * 4)))).flatten

/-! Generic lemmas about folds used by the block-assembly loops. -/

theorem foldl_invariant {α β : Type} (f : β → α → β) (P : β → Prop)
    (l : List α) (b : β) (hb : P b) (hf : ∀ c a, a ∈ l → P c → P (f c a)) :
    P (l.foldl f b) := by
  induction l generalizing b with
  | nil => exact hb
  | cons a t ih =>
      exact ih (f b a) (hf b a (List.mem_cons_self a t) hb)
        (fun c a' ha' hc => hf c a' (List.mem_cons_of_mem _ ha') hc)

theorem foldl_all_skip {α : Type} (f : List Nat → α → List Nat) (o : Nat)
    (l : List α) (hskip : ∀ (c : List Nat) (a : α), a ∈ l → (f c a).getD o 0 = c.getD o 0)
    (b : List Nat) : (l.foldl f b).getD o 0 = b.getD o 0 :=
  foldl_invariant f (fun c => c.getD o 0 = b.getD o 0) l b rfl
    (fun c a ha hc => (hskip c a ha).trans hc)

theorem foldl_write_once {α : Type} (f : List Nat → α → List Nat) (o v L : Nat) :
    ∀ (l : List α) (a0 : α), l.Nodup → a0 ∈ l →
      (∀ c : List Nat, c.length = L → (f c a0).getD o 0 = v ∧ (f c a0).length = L) →
      (∀ (c : List Nat) (a : α), a ∈ l → a ≠ a0 →
        (f c a).getD o 0 = c.getD o 0 ∧ (f c a).length = c.length) →
      ∀ b : List Nat, b.length = L → (l.foldl f b).getD o 0 = v := by
  intro l
  induction l with
  | nil => intro a0 _ hmem; cases hmem
  | cons a t ih =>
      intro a0 hnd hmem hwrite hskip b hb
      rcases List.mem_cons.mp hmem with h | h
      · subst h
        have h1 := hwrite b hb
        have ha0nt : a0 ∉ t := (List.nodup_cons.mp hnd).1
        simp only [List.foldl_cons]
        exact foldl_invariant f (fun c => c.getD o 0 = v) t (f b a0) h1.1
          (fun c a' ha' hc => by
            have hne : a' ≠ a0 := fun he => ha0nt (he ▸ ha')
            show (f c a').getD o 0 = v
            rw [(hskip c a' (List.mem_cons_of_mem _ ha') hne).1]; exact hc)
      · have hne : a ≠ a0 := fun he => (List.nodup_cons.mp hnd).1 (he ▸ h)
        have hs := hskip b a (List.mem_cons_self a t) hne
        simp only [List.foldl_cons]
        exact ih a0 (List.nodup_cons.mp hnd).2 h hwrite
          (fun c a' ha' h' => hskip c a' (List.mem_cons_of_mem _ ha') h')
          (f b a) (hs.2.trans hb)

/-! Byte-buffer lemmas. -/

theorem getD_set_ne (l : List Nat) (i j v : Nat) (h : i ≠ j) :
    (l.set i v).getD j 0 = l.getD j 0 := by
  simp [List.getD_eq_getElem?_getD, List.getElem?_set_ne h]

theorem getD_set_self (l : List Nat) (i v : Nat) (h : i < l.length) :
    (l.set i v).getD i 0 = v := by
  simp [List.getD_eq_getElem?_getD, List.getElem?_set_self h]

theorem getD_replicate_zero (n o : Nat) : (List.replicate n 0).getD o 0 = 0 := by
  simp [List.getD_eq_getElem?_getD, List.getElem?_replicate]
  split <;> rfl

theorem length_writePixel (buf : List Nat) (off : Nat) (p : Nat × Nat × Nat × Nat) :
    (writePixel buf off p).length = buf.length := by
  simp [writePixel]

theorem getD_writePixel_ne (buf : List Nat) (off : Nat) (p : Nat × Nat × Nat × Nat)
    (o : Nat) (h : ∀ j, j < 4 → o ≠ off + j) :
    (writePixel buf off p).getD o 0 = buf.getD o 0 := by
  have h0 : off ≠ o := fun he => h 0 (by norm_num) (by omega)
  have h1 : off + 1 ≠ o := fun he => h 1 (by norm_num) he.symm
  have h2 : off + 2 ≠ o := fun he => h 2 (by norm_num) he.symm
  have h3 : off + 3 ≠ o := fun he => h 3 (by norm_num) he.symm
  unfold writePixel
  rw [getD_set_ne _ _ _ _ h3, getD_set_ne _ _ _ _ h2, getD_set_ne _ _ _ _ h1,
    getD_set_ne _ _ _ _ h0]

theorem getD_writePixel_hit (buf : List Nat) (off : Nat) (p : Nat × Nat × Nat × Nat)
    (k : Nat) (hk : k < 4) (hlen : off + 3 < buf.length) :
    (writePixel buf off p).getD (off + k) 0 = tupleGet p k := by
  unfold writePixel
  match k, hk with
  | 0, _ =>
      rw [getD_set_ne _ _ _ _ (by omega), getD_set_ne _ _ _ _ (by omega),
        getD_set_ne _ _ _ _ (by omega)]
      simpa using getD_set_self buf off p.1 (by omega)
  | 1, _ =>
      rw [getD_set_ne _ _ _ _ (by omega), getD_set_ne _ _ _ _ (by omega)]
      exact getD_set_self _ _ _ (by simp; omega)
  | 2, _ =>
      rw [getD_set_ne _ _ _ _ (by omega)]
      exact getD_set_self _ _ _ (by simp; omega)
  | 3, _ =>
      exact getD_set_self _ _ _ (by simp; omega)

/-- Uniqueness of the row/column decomposition of a pixel offset. -/
theorem rowcol_inj {w x x' y y' : Nat} (hx : x < w) (hx' : x' < w)
    (h : y * w + x = y' * w + x') : x = x' ∧ y = y' := by
  have hw : 0 < w := lt_of_le_of_lt (Nat.zero_le x) hx
  have e1 : (y * w + x) % w = x := by
    rw [Nat.add_comm, Nat.add_mul_mod_self_right]; exact Nat.mod_eq_of_lt hx
  have e1' : (y' * w + x') % w = x' := by
    rw [Nat.add_comm, Nat.add_mul_mod_self_right]; exact Nat.mod_eq_of_lt hx'
  have e2 : (y * w + x) / w = y := by
    rw [Nat.add_comm, Nat.add_mul_div_right _ _ hw, Nat.div_eq_of_lt hx, Nat.zero_add]
  have e2' : (y' * w + x') / w = y' := by
    rw [Nat.add_comm, Nat.add_mul_div_right _ _ hw, Nat.div_eq_of_lt hx', Nat.zero_add]
  constructor
  · rw [← e1, ← e1', h]
  · rw [← e2, ← e2', h]

theorem off_inj {p p' k k' : Nat} (hk : k < 4) (hk' : k' < 4)
    (h : p * 4 + k = p' * 4 + k') : p = p' ∧ k = k' := by omega

theorem pix_lt {w h x y : Nat} (hx : x < w) (hy : y < h) : y * w + x < w * h :=
  calc y * w + x < y * w + w := by omega
    _ = (y + 1) * w := by ring
    _ ≤ h * w := Nat.mul_le_mul_right w hy
    _ = w * h := Nat.mul_comm h w

/-! Characterization of the 4×4 pixel-write loop. -/

theorem length_writeBlockPixels (w h bx byy : Nat) (pix : Nat → Nat → Nat × Nat × Nat × Nat)
    (buf : List Nat) : (writeBlockPixels w h bx byy pix buf).length = buf.length := by
  unfold writeBlockPixels
  refine foldl_invariant _ (fun c : List Nat => c.length = buf.length) _ _ rfl ?_
  intro c py _ hc
  refine foldl_invariant _ (fun c2 : List Nat => c2.length = buf.length) _ _ hc ?_
  intro c2 px _ hc2
  dsimp only
  split
  · rw [length_writePixel]; exact hc2
  · exact hc2

theorem getD_writeBlockPixels_miss (w h bx byy : Nat) (pix : Nat → Nat → Nat × Nat × Nat × Nat)
    (buf : List Nat) (x y k : Nat) (hx : x < w) (hy : y < h) (hk : k < 4)
    (hne : ¬(x / 4 = bx ∧ y / 4 = byy)) :
    (writeBlockPixels w h bx byy pix buf).getD ((y * w + x) * 4 + k) 0 =
      buf.getD ((y * w + x) * 4 + k) 0 := by
  unfold writeBlockPixels
  refine foldl_all_skip _ _ _ ?_ buf
  intro c py hpy
  refine foldl_all_skip _ _ _ ?_ c
  intro c2 px hpx
  have hpx4 : px < 4 := List.mem_range.mp hpx
  have hpy4 : py < 4 := List.mem_range.mp hpy
  dsimp only
  split
  case isTrue hcond =>
    apply getD_writePixel_ne
    intro j hj heq
    obtain ⟨h1, h2⟩ := off_inj hk hj heq
    obtain ⟨hx', hy'⟩ := rowcol_inj hx hcond.1 h1
    exact hne ⟨by omega, by omega⟩
  case isFalse => rfl

theorem getD_writeBlockPixels_hit (w h bx byy : Nat) (pix : Nat → Nat → Nat × Nat × Nat × Nat)
    (x y k : Nat) (hx : x < w) (hy : y < h) (hk : k < 4)
    (hbx : x / 4 = bx) (hby : y / 4 = byy) :
    ∀ buf : List Nat, buf.length = w * h * 4 →
      (writeBlockPixels w h bx byy pix buf).getD ((y * w + x) * 4 + k) 0 =
        tupleGet (pix (x % 4) (y % 4)) k := by
  unfold writeBlockPixels
  refine foldl_write_once _ _ _ (w * h * 4) (List.range 4) (y % 4) (List.nodup_range 4)
    (List.mem_range.mpr (Nat.mod_lt _ (by norm_num))) ?_ ?_
  · -- the block row holding the target pixel writes it
    intro c hc
    constructor
    · refine foldl_write_once _ _ _ (w * h * 4) (List.range 4) (x % 4) (List.nodup_range 4)
        (List.mem_range.mpr (Nat.mod_lt _ (by norm_num))) ?_ ?_ c hc
      · intro c2 hc2
        have ex : bx * 4 + x % 4 = x := by omega
        have ey : byy * 4 + y % 4 = y := by omega
        constructor
        · dsimp only
          rw [ex, ey, if_pos ⟨hx, hy⟩]
          have hb : (y * w + x) * 4 + 3 < c2.length := by
            have := pix_lt hx hy; omega
          exact getD_writePixel_hit c2 ((y * w + x) * 4) _ k hk hb
        · dsimp only
          rw [ex, ey, if_pos ⟨hx, hy⟩, length_writePixel]
          exact hc2
      · intro c2 px' hpx' hne'
        have hpx4 : px' < 4 := List.mem_range.mp hpx'
        constructor
        · dsimp only
          split
          case isTrue hcond =>
            apply getD_writePixel_ne
            intro j hj heq
            obtain ⟨h1, h2⟩ := off_inj hk hj heq
            obtain ⟨hx', hy'⟩ := rowcol_inj hx hcond.1 h1
            exact hne' (by omega)
          case isFalse => rfl
        · dsimp only
          split
          · rw [length_writePixel]
          · rfl
    · refine foldl_invariant _ (fun c2 : List Nat => c2.length = w * h * 4) _ _ hc ?_
      intro c2 px' _ hc2
      dsimp only
      split
      · rw [length_writePixel]; exact hc2
      · exact hc2
  · -- block rows other than the target's never touch the target offset
    intro c py' hpy' hne'
    have hpy4 : py' < 4 := List.mem_range.mp hpy'
    constructor
    · refine foldl_all_skip _ _ _ ?_ c
      intro c2 px' hpx'
      have hpx4 : px' < 4 := List.mem_range.mp hpx'
      dsimp only
      split
      case isTrue hcond =>
        apply getD_writePixel_ne
        intro j hj heq
        obtain ⟨h1, h2⟩ := off_inj hk hj heq
        obtain ⟨hx', hy'⟩ := rowcol_inj hx hcond.1 h1
        exact hne' (by omega)
      case isFalse => rfl
    · refine foldl_invariant _ (fun c2 : List Nat => c2.length = c.length) _ _ rfl ?_
      intro c2 px' _ hc2
      dsimp only
      split
      · rw [length_writePixel]; exact hc2
      · exact hc2

/-! Characterization of the block-grid loop. -/

theorem length_assembleBlocks (stride : Nat)
    (blockPix : List Nat → Nat → Nat → Nat → Nat × Nat × Nat × Nat)
    (data : List Nat) (w h : Nat) :
    (assembleBlocks stride blockPix data w h).length = w * h * 4 := by
  unfold assembleBlocks
  refine foldl_invariant _ (fun c : List Nat => c.length = w * h * 4) _ _
    (List.length_replicate _ _) ?_
  intro c byy _ hc
  refine foldl_invariant _ (fun c2 : List Nat => c2.length = w * h * 4) _ _ hc ?_
  intro c2 bx _ hc2
  dsimp only
  split
  · exact hc2
  · rw [length_writeBlockPixels]; exact hc2

/-- Pointwise characterization of both decoders' assembly loop: the byte at
component `k` of in-bounds pixel `(x, y)` is `0` when the byte range of the
block containing the pixel exceeds the payload length (the block is skipped),
and otherwise is the decoded block pixel at in-block coordinates
`(x % 4, y % 4)`. -/
theorem assembleBlocks_getD (stride : Nat)
    (blockPix : List Nat → Nat → Nat → Nat → Nat × Nat × Nat × Nat)
    (data : List Nat) (w h x y k : Nat)
    (hx : x < w) (hy : y < h) (hk : k < 4) :
    (assembleBlocks stride blockPix data w h).getD ((y * w + x) * 4 + k) 0 =
      if (y / 4 * ((w + 3) / 4) + x / 4) * stride + stride > data.length then 0
      else tupleGet (blockPix data ((y / 4 * ((w + 3) / 4) + x / 4) * stride) (x % 4) (y % 4)) k := by
  have hbwx : x / 4 < (w + 3) / 4 := by omega
  have hbhy : y / 4 < (h + 3) / 4 := by omega
  unfold assembleBlocks
  split
  case isTrue hout =>
    -- the block holding (x, y) is out of payload range: nothing ever writes the byte
    have hall : ∀ (c : List Nat) (byy : Nat), byy ∈ List.range ((h + 3) / 4) →
        ((List.range ((w + 3) / 4)).foldl (fun buf bx =>
          if (byy * ((w + 3) / 4) + bx) * stride + stride > data.length then buf
          else writeBlockPixels w h bx byy
            (fun px py => blockPix data ((byy * ((w + 3) / 4) + bx) * stride) px py) buf) c).getD
          ((y * w + x) * 4 + k) 0 = c.getD ((y * w + x) * 4 + k) 0 := by
      intro c byy _
      refine foldl_all_skip _ _ _ ?_ c
      intro c2 bx _
      dsimp only
      split
      case isTrue => rfl
      case isFalse hin =>
        refine getD_writeBlockPixels_miss w h bx byy _ c2 x y k hx hy hk ?_
        rintro ⟨hbx, hby⟩
        rw [← hbx, ← hby] at hin
        exact hin hout
    rw [foldl_all_skip _ _ _ hall _, getD_replicate_zero]
  case isFalse hin =>
    refine foldl_write_once _ _ _ (w * h * 4) _ (y / 4) (List.nodup_range _)
      (List.mem_range.mpr hbhy) ?_ ?_ _ (List.length_replicate _ _)
    · -- the block row holding the pixel's block writes the decoded byte
      intro c hc
      constructor
      · refine foldl_write_once _ _ _ (w * h * 4) _ (x / 4) (List.nodup_range _)
          (List.mem_range.mpr hbwx) ?_ ?_ c hc
        · intro c2 hc2
          constructor
          · dsimp only
            rw [if_neg hin]
            exact getD_writeBlockPixels_hit w h (x / 4) (y / 4) _ x y k hx hy hk rfl rfl c2 hc2
          · dsimp only
            split
            · exact hc2
            · rw [length_writeBlockPixels]; exact hc2
        · intro c2 bx hbx hne
          constructor
          · dsimp only
            split
            case isTrue => rfl
            case isFalse =>
              exact getD_writeBlockPixels_miss w h bx (y / 4) _ c2 x y k hx hy hk
                (fun hc => hne hc.1.symm)
          · dsimp only
            split
            · rfl
            · rw [length_writeBlockPixels]
      · refine foldl_invariant _ (fun c2 : List Nat => c2.length = w * h * 4) _ _ hc ?_
        intro c2 bx _ hc2
        dsimp only
        split
        · exact hc2
        · rw [length_writeBlockPixels]; exact hc2
    · -- other block rows never touch the byte
      intro c byy _ hne
      constructor
      · refine foldl_all_skip _ _ _ ?_ c
        intro c2 bx _
        dsimp only
        split
        case isTrue => rfl
        case isFalse =>
          exact getD_writeBlockPixels_miss w h bx byy _ c2 x y k hx hy hk
            (fun hc => hne hc.2.symm)
      · refine foldl_invariant _ (fun c2 : List Nat => c2.length = c.length) _ _ rfl ?_
        intro c2 bx _ hc2
        dsimp only
        split
        · exact hc2
        · rw [length_writeBlockPixels]; exact hc2

/-! Structural lemmas about the PNG byte stream. -/

/-- `write_png`'s inline chunk framing coincides with the spec's
`pngChunk` framing, for any compressor and any buffer, matching or not. -/
theorem write_png_structure (compress : List Nat → List Nat) (w h : Nat)
    (rgba : List Nat) :
    write_png compress w h rgba =
      pngSignature ++ pngChunk tagIHDR (be32 w ++ be32 h ++ [8, 6, 0, 0, 0])
        ++ pngChunk tagIDAT (compress (scanlines w h rgba)) ++ pngChunk tagIEND [] := by
  have h13 : (be32 w ++ be32 h ++ [8, 6, 0, 0, 0]).length = 13 := by
    simp [be32]
  unfold write_png pngChunk
  rw [h13]
  simp [List.append_assoc]

theorem foldl_append_eq {α β : Type} (g : α → List β) (l : List α) :
    ∀ acc : List β, l.foldl (fun r a => r ++ g a) acc = acc ++ (l.map g).flatten := by
  induction l with
  | nil => intro acc; simp
  | cons a t ih => intro acc; simp [ih, List.append_assoc]

/-- The raw scanline stream built by `write_png`'s row loop is the
concatenation, row by row, of a filter byte `0` followed by that row's
slice of the RGBA buffer. -/
theorem scanlines_eq (w h : Nat) (rgba : List Nat) :
    scanlines w h rgba = scanlinesSpec w h rgba := by
  have harg : ∀ y : Nat, (y + 1) * w * 4 - y * w * 4 = w * 4 := by
    intro y
    have e : (y + 1) * w = y * w + w := Nat.succ_mul y w
    omega
  unfold scanlines scanlinesSpec byteSlice
  rw [foldl_append_eq]
  simp [harg]

/-- When the buffer has exactly `w*h*4` bytes, the scanline stream has
exactly `h * (1 + w*4)` bytes: each of the `h` rows contributes one filter
byte and `w*4` pixel bytes. -/
theorem scanlinesSpec_length (w h : Nat) (rgba : List Nat)
    (hlen : rgba.length = w * h * 4) :
    (scanlinesSpec w h rgba).length = h * (1 + w * 4) := by
  unfold scanlinesSpec
  suffices hgen : ∀ n, n ≤ h →
      (((List.range n).map
        (fun y => 0 :: ((rgba.drop (y * w * 4)).take (w * 4)))).flatten).length =
        n * (1 + w * 4) from hgen h (le_refl h)
  intro n hn
  induction n with
  | zero => simp
  | succ m ih =>
      rw [List.range_succ, List.map_append, List.flatten_append, List.length_append,
        ih (by omega)]
      have hrow : ((rgba.drop (m * w * 4)).take (w * 4)).length = w * 4 := by
        rw [List.length_take, List.length_drop, hlen]
        have e1 : (m + 1) * w = m * w + w := Nat.succ_mul m w
        have e2 : (m + 1) * w ≤ h * w := Nat.mul_le_mul_right w hn
        have e3 : w * h = h * w := Nat.mul_comm w h
        omega
      simp [hrow]
      ring

/-- The palette built by `decompress_dxt1` always has four entries. -/
theorem length_dxt1Colors (c0 c1 : Nat) : (dxt1Colors c0 c1).length = 4 := by
  unfold dxt1Colors
  split <;> rfl

/-- The color palette built by `decompress_dxt5` always has four entries. -/
theorem length_dxt5Colors (c0 c1 : Nat) : (dxt5Colors c0 c1).length = 4 := rfl

/-- The alpha ramp built by `decompress_dxt5` always has eight entries. -/
theorem length_dxt5Alphas (a0 a1 : Nat) : (dxt5Alphas a0 a1).length = 8 := by
  unfold dxt5Alphas
  split <;> simp

end BImage

namespace Claims

open BImage

/-- C1, counterexample: for the BC3 alpha block with endpoints `a0 = 255`,
`a1 = 0`, the 8-entry alpha ramp that `decompress_dxt5` builds is NOT
`[255, 0, 219, 182, 146, 109, 73, 36]` (those values would need rounding
division; the code truncates, and its loop `for i in range(1, 7)` places
`((7-i)*a0 + i*a1) // 7` at ramp position `i+1`). -/
theorem c1_ramp_counterexample :
    dxt5Alphas 255 0 ≠ [255, 0, 219, 182, 146, 109, 73, 36] := by decide

/-- C1, amended: for alpha endpoints `a0 = 255 > a1 = 0`, the alpha ramp
`decompress_dxt5` builds equals `[255, 0, 218, 182, 145, 109, 72, 36]`
(`ramp[i] = ((8-i)*255 + (i-1)*0) // 7` for `i` in 2..7, truncating), and
a full 4×4 BC3 block whose sixteen 3-bit alpha indices start 0,1,...,7
reproduces exactly these eight alpha bytes in the decoded buffer. -/
theorem c1_ramp_truncated :
    dxt5Alphas 255 0 = [255, 0, 218, 182, 145, 109, 72, 36] ∧
    (List.range 8).map
        (fun i => (decompress_dxt5
          [255, 0, 0x88, 0xC6, 0xFA, 0, 0, 0, 0, 0, 0, 0, 0, 0, 0, 0] 4 4).getD (i * 4 + 3) 0) =
      [255, 0, 218, 182, 145, 109, 72, 36] := by decide

/-- C2, counterexample: for `a0 = 0 ≤ a1 = 255` the ramp the code builds is
`[0, 255, 51, 102, 153, 204, 0, 255]`, not the claim's
`ramp[i] = ((5-i)*a0 + i*a1)/5` for `i` in 2..5, which would give
`[0, 255, 102, 153, 204, 255, 0, 255]`. -/
theorem c2_ramp_counterexample :
    dxt5Alphas 0 255 ≠ [0, 255, 102, 153, 204, 255, 0, 255] := by decide

/-- C2, amended: for every BC3 alpha block with `a0 ≤ a1` the ramp is
`ramp[0] = a0`, `ramp[1] = a1`, `ramp[i] = ((6-i)*a0 + (i-1)*a1) / 5` with
truncating division for `i` in 2..5 (the code's loop index is one less than
the ramp position), `ramp[6] = 0`, `ramp[7] = 255`. -/
theorem c2_ramp_le (a0 a1 : Nat) (h : a0 ≤ a1) :
    dxt5Alphas a0 a1 =
      [a0, a1, (4 * a0 + a1) / 5, (3 * a0 + 2 * a1) / 5,
       (2 * a0 + 3 * a1) / 5, (a0 + 4 * a1) / 5, 0, 255] := by
  unfold dxt5Alphas
  rw [if_neg (by omega)]
  norm_num [show List.range' 1 4 = [1, 2, 3, 4] from rfl]

/-- C2, witness: the amended ramp at `a0 = 0`, `a1 = 255`. -/
theorem c2_ramp_le_witness :
    0 ≤ 255 ∧
    dxt5Alphas 0 255 =
      [0, 255, (4 * 0 + 255) / 5, (3 * 0 + 2 * 255) / 5,
       (2 * 0 + 3 * 255) / 5, (0 + 4 * 255) / 5, 0, 255] :=
  ⟨by decide, c2_ramp_le 0 255 (by decide)⟩

/-- C3, counterexample: called with width 0 (or height 0) the decoders return
an image buffer — the empty byte string, of length `width*height*4 = 0` —
rather than any `InvalidDimensions` error; no such error exists anywhere in
the code, which builds `bytearray(width * height * 4)` and iterates zero
blocks. -/
theorem c3_zero_dims_counterexample :
    decompress_dxt1 [1, 2, 3, 4, 5, 6, 7, 8] 0 4 = [] ∧
    decompress_dxt5 (List.replicate 16 7) 4 0 = [] := by decide

/-- C3, amended: for every payload, calling `decompress_dxt1` or
`decompress_dxt5` with `width = 0` or `height = 0` raises no error and
returns the empty image buffer of exactly `width*height*4 = 0` bytes. -/
theorem c3_zero_dims_empty (data : List Nat) (w h : Nat) (hz : w = 0 ∨ h = 0) :
    decompress_dxt1 data w h = [] ∧ decompress_dxt5 data w h = [] := by
  constructor
  · refine List.length_eq_zero.mp ?_
    rw [decompress_dxt1, length_assembleBlocks]
    rcases hz with h1 | h1 <;> simp [h1]
  · refine List.length_eq_zero.mp ?_
    rw [decompress_dxt5, length_assembleBlocks]
    rcases hz with h1 | h1 <;> simp [h1]

/-- C3, witness: the amended statement at `data = [1,2,3]`, `width = 0`,
`height = 5`. -/
theorem c3_zero_dims_empty_witness :
    (0 = 0 ∨ 5 = 0) ∧
    (decompress_dxt1 [1, 2, 3] 0 5 = [] ∧ decompress_dxt5 [1, 2, 3] 0 5 = []) :=
  ⟨Or.inl rfl, c3_zero_dims_empty [1, 2, 3] 0 5 (Or.inl rfl)⟩

/-- C4, counterexample: `write_png` performs no buffer-length validation.
Called with `width = height = 1` and an empty RGBA buffer (length `0`, while
`width*height*4 = 4`), it still produces a complete 58-byte PNG stream
(signature plus IHDR, IDAT and IEND chunks) instead of any
`BufferSizeMismatch` error; no such error exists in the code.
(`id` stands in for the external `zlib.compress`.) -/
theorem c4_no_size_check_counterexample :
    ([] : List Nat).length ≠ 1 * 1 * 4 ∧ (write_png id 1 1 []).length = 58 := by decide

/-- C4, amended: `write_png` never checks the RGBA buffer length: for every
compressor, width, height and buffer — matching or not — it produces the full
output stream of signature, IHDR chunk, IDAT chunk (compressing whatever the
row slices of the given buffer yield) and IEND chunk. -/
theorem c4_output_unconditional (compress : List Nat → List Nat) (w h : Nat)
    (rgba : List Nat) :
    write_png compress w h rgba =
      pngSignature ++ pngChunk tagIHDR (be32 w ++ be32 h ++ [8, 6, 0, 0, 0])
        ++ pngChunk tagIDAT (compress (scanlines w h rgba)) ++ pngChunk tagIEND [] :=
  write_png_structure compress w h rgba

/-- C5: whenever the packed 16-bit endpoint values satisfy `c0 ≤ c1` (so in
particular whenever `c0 = c1`), the `decompress_dxt1` palette has entry 2
equal to the per-channel truncating average of the two decoded (RGB565 →
RGB888 expanded) endpoints with alpha 255, and entry 3 fully transparent
`(0, 0, 0, 0)`. -/
theorem c5_dxt1_le_branch (c0 c1 : Nat) (h : c0 ≤ c1) :
    (dxt1Colors c0 c1).getD 2 (0, 0, 0, 0) =
      (((rgb565 c0).1 + (rgb565 c1).1) / 2,
       ((rgb565 c0).2.1 + (rgb565 c1).2.1) / 2,
       ((rgb565 c0).2.2 + (rgb565 c1).2.2) / 2, 255) ∧
    (dxt1Colors c0 c1).getD 3 (0, 0, 0, 0) = (0, 0, 0, 0) := by
  unfold dxt1Colors
  rw [if_neg (by omega)]
  exact ⟨rfl, rfl⟩

/-- C5, witness: the `c0 ≤ c1` branch at `c0 = c1 = 0xFFFF`. -/
theorem c5_dxt1_le_branch_witness :
    0xFFFF ≤ 0xFFFF ∧
    ((dxt1Colors 0xFFFF 0xFFFF).getD 2 (0, 0, 0, 0) =
      (((rgb565 0xFFFF).1 + (rgb565 0xFFFF).1) / 2,
       ((rgb565 0xFFFF).2.1 + (rgb565 0xFFFF).2.1) / 2,
       ((rgb565 0xFFFF).2.2 + (rgb565 0xFFFF).2.2) / 2, 255) ∧
     (dxt1Colors 0xFFFF 0xFFFF).getD 3 (0, 0, 0, 0) = (0, 0, 0, 0)) :=
  ⟨le_refl _, c5_dxt1_le_branch 0xFFFF 0xFFFF (le_refl _)⟩

/-- C7: for every payload and positive dimensions, both decoders return a
buffer of exactly `width*height*4` bytes. -/
theorem c7_output_length (data : List Nat) (w h : Nat) (hw : 0 < w) (hh : 0 < h) :
    (decompress_dxt1 data w h).length = w * h * 4 ∧
    (decompress_dxt5 data w h).length = w * h * 4 :=
  ⟨length_assembleBlocks 8 dxt1BlockPix data w h,
   length_assembleBlocks 16 dxt5BlockPix data w h⟩

/-- C7, witness: a 5×3 image from an empty payload still has `5*3*4` bytes. -/
theorem c7_output_length_witness :
    0 < 5 ∧ 0 < 3 ∧
    ((decompress_dxt1 [] 5 3).length = 5 * 3 * 4 ∧
     (decompress_dxt5 [] 5 3).length = 5 * 3 * 4) :=
  ⟨by decide, by decide, c7_output_length [] 5 3 (by decide) (by decide)⟩

/-- C10: both decoders are total on arbitrary payloads and all non-negative
dimensions — `width = 0` or `height = 0`, empty, truncated and oversized
payloads included — and always return a buffer of exactly `width*height*4`
bytes (the length conjuncts carry no positivity hypothesis); every masked
2-bit palette index is in range of the 4-entry palettes, every masked 3-bit
alpha index is in range of the 8-entry ramp, and every in-bounds pixel write
offset `(y*w+x)*4+k` with `x < width`, `y < height`, `k < 4` lies inside the
buffer. (The embedding is a total function, so no exception can be
raised.) -/
theorem c10_safety (data : List Nat) (w h v a0 a1 c0 c1 : Nat) :
    (decompress_dxt1 data w h).length = w * h * 4 ∧
    (decompress_dxt5 data w h).length = w * h * 4 ∧
    (∀ x y k : Nat, x < w → y < h → k < 4 → (y * w + x) * 4 + k < w * h * 4) ∧
    (v &&& 0x3) < (dxt1Colors c0 c1).length ∧
    (v &&& 0x3) < (dxt5Colors c0 c1).length ∧
    (v &&& 0x7) < (dxt5Alphas a0 a1).length := by
  refine ⟨length_assembleBlocks 8 dxt1BlockPix data w h,
    length_assembleBlocks 16 dxt5BlockPix data w h, ?_, ?_, ?_, ?_⟩
  · intro x y k hx hy hk
    have := pix_lt hx hy; omega
  · rw [length_dxt1Colors]
    have : v &&& 0x3 ≤ 0x3 := Nat.and_le_right
    omega
  · rw [length_dxt5Colors]
    have : v &&& 0x3 ≤ 0x3 := Nat.and_le_right
    omega
  · rw [length_dxt5Alphas]
    have : v &&& 0x7 ≤ 0x7 := Nat.and_le_right
    omega

/-- C10, witness: the safety facts at the degenerate dimensions
`width = height = 0` with a non-empty payload — the case the claim singles
out: the decoders still terminate and return exactly `0*0*4 = 0` bytes. -/
theorem c10_safety_witness :
    (decompress_dxt1 [9] 0 0).length = 0 * 0 * 4 ∧
    (decompress_dxt5 [9] 0 0).length = 0 * 0 * 4 ∧
    (∀ x y k : Nat, x < 0 → y < 0 → k < 4 → (y * 0 + x) * 4 + k < 0 * 0 * 4) ∧
    (0xFF &&& 0x3) < (dxt1Colors 7 7).length ∧
    (0xFF &&& 0x3) < (dxt5Colors 7 7).length ∧
    (0xFF &&& 0x7) < (dxt5Alphas 7 7).length :=
  c10_safety [9] 0 0 0xFF 7 7 7 7

/-- C6: per-block truncation policy of both decoders. For every payload,
dimensions and in-bounds pixel `(x, y)` (component `k`): when the byte range
`[blockIndex*stride, blockIndex*stride + stride)` of the block containing
the pixel exceeds the payload length, the block is skipped and the byte
keeps its buffer-initialized value `0`; when the range lies fully inside the
payload, the byte is the block's normally decoded pixel value. The stride is
8 for `decompress_dxt1` and 16 for `decompress_dxt5`, and
`blockIndex = (y/4) * ceil(w/4) + (x/4)`. No error is ever raised: both
decoders are total functions of their inputs. -/
theorem c6_block_truncation (data : List Nat) (w h x y k : Nat)
    (hx : x < w) (hy : y < h) (hk : k < 4) :
    ((y / 4 * ((w + 3) / 4) + x / 4) * 8 + 8 > data.length →
        (decompress_dxt1 data w h).getD ((y * w + x) * 4 + k) 0 = 0) ∧
    ((y / 4 * ((w + 3) / 4) + x / 4) * 8 + 8 ≤ data.length →
        (decompress_dxt1 data w h).getD ((y * w + x) * 4 + k) 0 =
          tupleGet (dxt1BlockPix data ((y / 4 * ((w + 3) / 4) + x / 4) * 8) (x % 4) (y % 4)) k) ∧
    ((y / 4 * ((w + 3) / 4) + x / 4) * 16 + 16 > data.length →
        (decompress_dxt5 data w h).getD ((y * w + x) * 4 + k) 0 = 0) ∧
    ((y / 4 * ((w + 3) / 4) + x / 4) * 16 + 16 ≤ data.length →
        (decompress_dxt5 data w h).getD ((y * w + x) * 4 + k) 0 =
          tupleGet (dxt5BlockPix data ((y / 4 * ((w + 3) / 4) + x / 4) * 16) (x % 4) (y % 4)) k) := by
  have h1 := assembleBlocks_getD 8 dxt1BlockPix data w h x y k hx hy hk
  have h5 := assembleBlocks_getD 16 dxt5BlockPix data w h x y k hx hy hk
  refine ⟨fun hout => ?_, fun hin => ?_, fun hout => ?_, fun hin => ?_⟩
  · rw [decompress_dxt1, h1, if_pos hout]
  · rw [decompress_dxt1, h1, if_neg (by omega)]
  · rw [decompress_dxt5, h5, if_pos hout]
  · rw [decompress_dxt5, h5, if_neg (by omega)]

/-- C6, witness: an 8-byte payload for a 5×5 image: the pixel `(4, 4)` lies
in block 3 of the grid, whose byte range exceeds the payload for both
strides, while pixel `(0, 0)` lies in block 0, in range for stride 8. -/
theorem c6_block_truncation_witness :
    4 < 5 ∧
    (((4 / 4 * ((5 + 3) / 4) + 4 / 4) * 8 + 8 > (List.replicate 8 3).length →
        (decompress_dxt1 (List.replicate 8 3) 5 5).getD ((4 * 5 + 4) * 4 + 0) 0 = 0) ∧
     ((4 / 4 * ((5 + 3) / 4) + 4 / 4) * 8 + 8 ≤ (List.replicate 8 3).length →
        (decompress_dxt1 (List.replicate 8 3) 5 5).getD ((4 * 5 + 4) * 4 + 0) 0 =
          tupleGet (dxt1BlockPix (List.replicate 8 3)
            ((4 / 4 * ((5 + 3) / 4) + 4 / 4) * 8) (4 % 4) (4 % 4)) 0) ∧
     ((4 / 4 * ((5 + 3) / 4) + 4 / 4) * 16 + 16 > (List.replicate 8 3).length →
        (decompress_dxt5 (List.replicate 8 3) 5 5).getD ((4 * 5 + 4) * 4 + 0) 0 = 0) ∧
     ((4 / 4 * ((5 + 3) / 4) + 4 / 4) * 16 + 16 ≤ (List.replicate 8 3).length →
        (decompress_dxt5 (List.replicate 8 3) 5 5).getD ((4 * 5 + 4) * 4 + 0) 0 =
          tupleGet (dxt5BlockPix (List.replicate 8 3)
            ((4 / 4 * ((5 + 3) / 4) + 4 / 4) * 16) (4 % 4) (4 % 4)) 0)) :=
  ⟨by decide,
   c6_block_truncation (List.replicate 8 3) 5 5 4 4 0 (by decide) (by decide) (by decide)⟩

/-- C8: a solid BC1 block — both packed endpoints equal (`c0 == c1`, bytes
`b0`, `b1` each) and all 32 index bits zero — decodes, as a 4×4 image, to 16
identical opaque pixels whose RGB channels are the truncating 8-bit
expansions (`r5*255/31`, `g6*255/63`, `b5*255/31`, the components of
`rgb565`) of the endpoint's 5-6-5 fields, with alpha 255. -/
theorem c8_solid_block (b0 b1 : Nat) (hb0 : b0 < 256) (hb1 : b1 < 256)
    (x y k : Nat) (hx : x < 4) (hy : y < 4) (hk : k < 4) :
    (decompress_dxt1 [b0, b1, b0, b1, 0, 0, 0, 0] 4 4).getD ((y * 4 + x) * 4 + k) 0 =
      tupleGet ((rgb565 (b0 + 256 * b1)).1, (rgb565 (b0 + 256 * b1)).2.1,
        (rgb565 (b0 + 256 * b1)).2.2, 255) k ∧
    (decompress_dxt1 [b0, b1, b0, b1, 0, 0, 0, 0] 4 4).length = 4 * 4 * 4 := by
  constructor
  · have hmaster := assembleBlocks_getD 8 dxt1BlockPix
      [b0, b1, b0, b1, 0, 0, 0, 0] 4 4 x y k hx hy hk
    have hx4 : x / 4 = 0 := Nat.div_eq_of_lt hx
    have hy4 : y / 4 = 0 := Nat.div_eq_of_lt hy
    rw [decompress_dxt1, hmaster, hx4, hy4, if_neg (by simp)]
    have hpix : dxt1BlockPix [b0, b1, b0, b1, 0, 0, 0, 0] ((0 * ((4 + 3) / 4) + 0) * 8)
        (x % 4) (y % 4) =
        ((rgb565 (b0 + 256 * b1)).1, (rgb565 (b0 + 256 * b1)).2.1,
         (rgb565 (b0 + 256 * b1)).2.2, 255) := by
      unfold dxt1BlockPix readLE16 readLE32
      simp only [Nat.zero_mul, Nat.zero_add, Nat.mul_zero, List.getD_cons_zero,
        List.getD_cons_succ, Nat.add_zero]
      have hind : b0 + 256 * b1 + 65536 * b0 + 16777216 * b1 = b0 + 256 * b1 +
          65536 * (b0 + 256 * b1) := by ring
      simp only [Nat.mul_zero, Nat.add_zero, Nat.zero_shiftRight, Nat.zero_and]
      rw [show dxt1Colors (b0 + 256 * b1) (b0 + 256 * b1) =
        (let e0 := rgb565 (b0 + 256 * b1)
         let e1 := rgb565 (b0 + 256 * b1)
         [(e0.1, e0.2.1, e0.2.2, 255), (e1.1, e1.2.1, e1.2.2, 255),
          ((e0.1 + e1.1) / 2, (e0.2.1 + e1.2.1) / 2, (e0.2.2 + e1.2.2) / 2, 255),
          (0, 0, 0, 0)]) from by rw [dxt1Colors, if_neg (lt_irrefl _)]]
      rfl
    rw [hpix]
  · rw [decompress_dxt1, length_assembleBlocks]

/-- C8, witness: the solid block with endpoint bytes `b0 = 0xE0`,
`b1 = 0x07` (packed `0x07E0`, pure green) at pixel `(1, 2)`, component 1. -/
theorem c8_solid_block_witness :
    0xE0 < 256 ∧ 0x07 < 256 ∧
    ((decompress_dxt1 [0xE0, 0x07, 0xE0, 0x07, 0, 0, 0, 0] 4 4).getD
        ((2 * 4 + 1) * 4 + 1) 0 =
      tupleGet ((rgb565 (0xE0 + 256 * 0x07)).1, (rgb565 (0xE0 + 256 * 0x07)).2.1,
        (rgb565 (0xE0 + 256 * 0x07)).2.2, 255) 1 ∧
     (decompress_dxt1 [0xE0, 0x07, 0xE0, 0x07, 0, 0, 0, 0] 4 4).length = 4 * 4 * 4) :=
  ⟨by decide, by decide,
   c8_solid_block 0xE0 0x07 (by decide) (by decide) 1 2 1 (by decide) (by decide) (by decide)⟩

/-- C9: for positive dimensions and a matching RGBA buffer, `write_png`'s
output is exactly the 8-byte PNG signature, an IHDR chunk with big-endian
width and height, bit depth 8, color type 6 (RGBA), compression 0, filter 0,
no interlacing, one IDAT chunk whose data is the compressor's output on the
scanline stream (each of the `height` rows prefixed with filter-type byte 0,
followed by the row's `width*4` bytes, `height*(1+width*4)` bytes in all),
and an empty IEND chunk — each chunk framed as 4-byte big-endian length,
4-byte tag, data, and big-endian CRC-32 over tag+data. The external
`zlib.compress(·, 9)` is the `compress` argument. -/
theorem c9_png_layout (compress : List Nat → List Nat) (w h : Nat) (rgba : List Nat)
    (hw : 0 < w) (hh : 0 < h) (hlen : rgba.length = w * h * 4) :
    write_png compress w h rgba =
      pngSignature ++ pngChunk tagIHDR (be32 w ++ be32 h ++ [8, 6, 0, 0, 0])
        ++ pngChunk tagIDAT (compress (scanlinesSpec w h rgba))
        ++ pngChunk tagIEND [] ∧
    (scanlinesSpec w h rgba).length = h * (1 + w * 4) := by
  constructor
  · rw [← scanlines_eq]
    exact write_png_structure compress w h rgba
  · exact scanlinesSpec_length w h rgba hlen

/-- C9, witness: a 1×1 image with the identity compressor. -/
theorem c9_png_layout_witness :
    0 < 1 ∧ ([9, 8, 7, 6] : List Nat).length = 1 * 1 * 4 ∧
    (write_png id 1 1 [9, 8, 7, 6] =
      pngSignature ++ pngChunk tagIHDR (be32 1 ++ be32 1 ++ [8, 6, 0, 0, 0])
        ++ pngChunk tagIDAT (id (scanlinesSpec 1 1 [9, 8, 7, 6]))
        ++ pngChunk tagIEND [] ∧
     (scanlinesSpec 1 1 [9, 8, 7, 6]).length = 1 * (1 + 1 * 4)) :=
  ⟨by decide, by decide,
   c9_png_layout id 1 1 [9, 8, 7, 6] (by decide) (by decide) (by decide)⟩

end Claims

section Sanity

example : BImage.dxt5Alphas 255 0 = [255, 0, 218, 182, 145, 109, 72, 36] := by decide

example : BImage.dxt5Alphas 0 255 = [0, 255, 51, 102, 153, 204, 0, 255] := by decide

example : BImage.rgb565 0xFFFF = (255, 255, 255) := by decide

example : BImage.decompress_dxt1 [] 0 4 = [] := by decide

-- zlib.crc32(b'IEND') = 0xAE426082
example : BImage.crc32 BImage.tagIEND = 0xAE426082 := by decide

example : (BImage.write_png id 1 1 []).length = 58 := by decide

end Sanity
